import Mathlib

/-!
Verification development for the liq-stream repository: a shallow embedding
of the normalization, deduplication, backoff and sink-queue logic of the
source adapters and writers, with theorems settling the specification
claims about them.

Conventions of the embedding:
  - Python floats are modelled as exact rationals.
  - JSON string fields that may be absent are modelled as Option String,
    with none standing for a missing key (dict.get returning None).
  - Fallible Python operations (float parsing) return Option.
-/

/-! ## Python primitives -/

/-- Truthiness of an optional string, as Python evaluates it in an or-chain:
None and the empty string are falsy, every other string is truthy. -/
def py_truthy (o : Option String) : Bool :=
  match o with
  | none => false
  | some s => !(s == "")

/-- Python or on two optional-string operands: the left one if truthy,
otherwise the right one. -/
def py_or (a b : Option String) : Option String :=
  if py_truthy a then a else b

/-- ASCII uppercase of one character, as Python str.upper acts on the
ASCII field values the feeds send. -/
def ascii_upper (c : Char) : Char :=
  if 'a' ≤ c ∧ c ≤ 'z' then Char.ofNat (c.toNat - 32) else c

/-- ASCII lowercase of one character, as Python str.lower acts on the
ASCII field values the feeds send. -/
def ascii_lower (c : Char) : Char :=
  if 'A' ≤ c ∧ c ≤ 'Z' then Char.ofNat (c.toNat + 32) else c

/-- Embedding of Python str.upper on ASCII strings. -/
def py_upper (s : String) : String := ⟨s.data.map ascii_upper⟩

/-- Embedding of Python str.lower on ASCII strings. -/
def py_lower (s : String) : String := ⟨s.data.map ascii_lower⟩

/-- Numeric value of a list of decimal digit characters, most significant
first. -/
def digits_to_nat (cs : List Char) : Nat :=
  cs.foldl (fun acc c => 10 * acc + (c.toNat - 48)) 0

/-- Embedding of Python float(s) on the decimal numerals the feeds use:
an optional sign, then digits with an optional fractional part. Returns
none where float would raise ValueError. -/
def py_float? (s : String) : Option Rat :=
  let signed : Bool × List Char :=
    match s.data with
    | '-' :: rest => (true, rest)
    | '+' :: rest => (false, rest)
    | cs => (false, cs)
  let ip := signed.2.takeWhile Char.isDigit
  let rest := signed.2.dropWhile Char.isDigit
  let val? : Option Rat :=
    match rest with
    | [] => if ip = [] then none else some ((digits_to_nat ip : Rat))
    | '.' :: fp =>
      if fp.all Char.isDigit ∧ (ip ≠ [] ∨ fp ≠ []) then
        some ((digits_to_nat ip : Rat) + (digits_to_nat fp : Rat) / (10 : Rat) ^ fp.length)
      else none
    | _ => none
  val?.map (fun v => if signed.1 then -v else v)

/-! ## Side normalization (binance_adapter.py, aster_adapter.py,
bybit_adapter.py, okx_adapter.py) -/

/-- Embedding of derive_liq_side from binance_adapter.py lines 16-23; the
function in aster_adapter.py lines 15-23 is identical. A forced BUY order
closes a short position, a forced SELL order closes a long position;
anything else maps to None. -/
def derive_liq_side (order_side : Option String) : Option String :=
  let s := py_upper (order_side.getD "")
  if s = "BUY" then some "short"
  else if s = "SELL" then some "long"
  else none

/-- Embedding of the side computation in
BybitAdapter._process_liquidation_any, bybit_adapter.py lines 191-192:
side_raw is the lowercased first truthy of the S and side fields, and the
emitted side is short for buy, long for sell, and the empty string
otherwise. -/
def bybit_liq_side (S_field side_field : Option String) : String :=
  let side_raw := py_lower ((py_or S_field side_field).getD "")
  if side_raw = "buy" then "short"
  else if side_raw = "sell" then "long"
  else ""

/-- Embedding of the side computation in OKXAdapter._normalize_and_write,
okx_adapter.py lines 82-83: the lowercased posSide field is used directly
when it is long or short, and the empty string otherwise. -/
def okx_liq_side (pos_side_field : Option String) : String :=
  let pos_side := py_lower (pos_side_field.getD "")
  if pos_side = "long" ∨ pos_side = "short" then pos_side else ""

/-! ## Quantity normalization -/

/-- Embedding of the quantity computation in
BinanceAdapter._normalize_and_write_batch, binance_adapter.py line 74:
float(o.get(l) or o.get(z) or o.get(q) or 0.0). The trailing numeric
fallback is modelled by the final none operand: when every field is falsy
the result is 0. A truthy but unparseable field makes float raise, which
the surrounding except turns into a skipped record, modelled as none.
The computation in aster_adapter.py line 67 is identical. -/
def binance_qty (l z q : Option String) : Option Rat :=
  match py_or (py_or (py_or l z) q) none with
  | some s => py_float? s
  | none => some 0

/-- Embedding of the quantity computation in
BybitAdapter._process_liquidation_any, bybit_adapter.py line 195:
_to_float(liq.get(v) or liq.get(size) or 0), where _to_float returns 0.0
on any parse failure. -/
def bybit_qty (v size : Option String) : Rat :=
  match py_or (py_or v size) none with
  | some s => (py_float? s).getD 0
  | none => 0

/-- Embedding of _abs_float from hyperliquid_adapter.py lines 62-66:
abs(float(x)) with every exception collapsed to None. float(None) raises,
so a missing field also yields None. -/
def abs_float (x : Option String) : Option Rat :=
  match x with
  | none => none
  | some s => (py_float? s).map (fun v => |v|)

/-- Quantity of the hyperliquid unified event, from
HyperliquidAdapter._normalize_and_write, hyperliquid_adapter.py line 234:
the absolute value of the parsed sz field. -/
def hl_qty (sz : Option String) : Option Rat :=
  abs_float sz

/-! ## Reconnect backoff (binance_adapter.py, aster_adapter.py,
bybit_adapter.py, okx_adapter.py) -/

/-- Sleep duration after the (n+1)-st consecutive connection failure in
BinanceAdapter.run, binance_adapter.py lines 96-129: backoff starts at
1.0, the loop sleeps for the current backoff and then multiplies it by
1.8 capping at 30.0. AsterAdapter.run lines 89-122 and BybitAdapter.run
lines 73-104 implement the same recurrence. -/
def binance_backoff : Nat → Rat
  | 0 => 1
  | n + 1 => min 30 (binance_backoff n * 1.8)

/-- Outcome of one iteration of the binance-style reconnect loop: either
the connect itself failed, or the connection succeeded (resetting backoff
to 1.0) and a later read failed. -/
inductive ConnOutcome where
  | connect_failed
  | connected_then_failed
deriving DecidableEq

/-- One iteration of BinanceAdapter.run as a transition on the backoff
variable: the first component is the duration slept in the except branch,
the second the backoff value afterwards. A successful connect resets
backoff to 1.0 before any read happens (line 108), so the sleep after a
subsequent read failure is 1.0 regardless of the previous backoff. -/
def binance_run_iter (backoff : Rat) (oc : ConnOutcome) : Rat × Rat :=
  match oc with
  | .connect_failed => (backoff, min 30 (backoff * 1.8))
  | .connected_then_failed => (1, min 30 (1 * 1.8))

/-- Sleep duration before the (n+1)-st reconnect attempt in
OKXAdapter.run, okx_adapter.py lines 126-128: a constant 3 seconds, with
no backoff variable at all. -/
def okx_reconnect_sleep (_n : Nat) : Rat := 3

/-- Modelled from the spec wording of claim C2, for comparison only: the
reconnect sleep sequence 1.0, 1.8, 3.24, ... capped at 30.0, that is
min 30 (1.8 ^ n). -/
def spec_backoff_seq (n : Nat) : Rat := min 30 ((1.8 : Rat) ^ n)

/-! ## Dedup ring of the file-based adapter (hyperliquid_adapter.py)

The adapter keeps a Python set named seen and a deque named ring with
maxlen 50000 (hyperliquid_adapter.py lines 148-151). The set is modelled
as a Finset, the deque as a list whose head is its left end. The logic
is agnostic in the key type, so the state is generic in K; the adapter
instantiates it at String via seen_key. -/

/-- Embedding of HyperliquidAdapter._seen_key, hyperliquid_adapter.py
lines 153-154: the dedup key is the tid, liquidated user and coin joined
by vertical bars. -/
def seen_key (tid liq_user coin : String) : String :=
  tid ++ "|" ++ liq_user ++ "|" ++ coin

/-- State of the dedup structure: the membership set and the FIFO ring. -/
structure DedupState (K : Type) [DecidableEq K] where
  seen : Finset K
  ring : List K

/-- The initial dedup state of HyperliquidAdapter.__init__,
hyperliquid_adapter.py lines 149-151: empty set, empty ring. -/
def dedup_init {K : Type} [DecidableEq K] : DedupState K :=
  { seen := ∅, ring := [] }

/-- Embedding of HyperliquidAdapter._check_seen, hyperliquid_adapter.py
lines 156-164. Returns (true, unchanged state) for a key already in seen.
Otherwise the key is added to seen and appended to the ring; a deque
append at maxlen silently drops the leftmost element first (the inner if
on the ring length, never reached because the ring stays below maxlen);
then, if the ring length has reached maxlen 50000, the oldest key is
popped from the left and discarded from seen. -/
def check_seen {K : Type} [DecidableEq K] (s : DedupState K) (k : K) :
    Bool × DedupState K :=
  if k ∈ s.seen then
    (true, s)
  else
    let seen1 : Finset K := insert k s.seen
    let ring1 : List K :=
      if s.ring.length = 50000 then s.ring.tail ++ [k] else s.ring ++ [k]
    if ring1.length = 50000 then
      match ring1 with
      | [] => (false, { seen := seen1, ring := [] })
      | old :: rest => (false, { seen := seen1.erase old, ring := rest })
    else
      (false, { seen := seen1, ring := ring1 })

/-- State component of check_seen. -/
def check_seen_state {K : Type} [DecidableEq K] (s : DedupState K) (k : K) :
    DedupState K :=
  (check_seen s k).2

/-- The dedup state after a sequence of _check_seen calls, one per key in
order. -/
def insert_all {K : Type} [DecidableEq K] (s : DedupState K) (ks : List K) :
    DedupState K :=
  ks.foldl check_seen_state s

/-! ## Postgres writer queue (writer_pg.py) -/

/-- Embedding of PostgresWriter.write_row enqueueing, writer_pg.py lines
139-166, acting on the bounded asyncio queue of maxsize 50000 created in
__init__ line 91 (head of the list is the front of the queue). put_nowait
succeeds while the queue is below capacity; on QueueFull the oldest
queued event is removed with get_nowait and the new one is enqueued. -/
def write_row_enqueue {E : Type} (q : List E) (e : E) : List E :=
  if q.length < 50000 then q ++ [e] else q.tail ++ [e]

/-! ## Postgres writer flush loop (writer_pg.py) -/

/-- The two loop parameters of PostgresWriter._run: batch_size (default
500) and flush_interval seconds (default 1.0). -/
structure PgFlushCtx where
  batch_size : Nat
  flush_interval : Rat

/-- The batch after the dequeue step of one loop iteration of
PostgresWriter._run, writer_pg.py lines 189-204: an arrived item is
appended to the batch, a dequeue timeout leaves it unchanged. -/
def pg_batch_extend {E : Type} (batch : List E) (item : Option E) : List E :=
  match item with
  | some r => batch ++ [r]
  | none => batch

/-- One iteration of the flush loop of PostgresWriter._run, writer_pg.py
lines 187-215, as a total function: item is the dequeued event if any,
elapsed the time since the last flush, insert_ok whether the batched
insert succeeds. Result: the batch carried to the next iteration, and the
rows durably inserted during this iteration. A flush is attempted when
the extended batch is nonempty and has reached batch_size or the flush
interval has elapsed; on insert failure the exception is caught and
logged, and the finally block clears the batch either way, so the loop
never propagates the error and continues with an empty batch. -/
def pg_run_iter {E : Type} (ctx : PgFlushCtx) (batch : List E)
    (item : Option E) (elapsed : Rat) (insert_ok : Bool) :
    List E × List E :=
  let batch1 := pg_batch_extend batch item
  if batch1.length ≠ 0 ∧ (ctx.batch_size ≤ batch1.length ∨ ctx.flush_interval ≤ elapsed) then
    ([], if insert_ok then batch1 else [])
  else
    (batch1, [])

/-! ## Hyperliquid record filter (hyperliquid_adapter.py) -/

/-- The liquidation sub-object of a fill, hyperliquid_adapter.py line
118: liquidatedUser, markPx and method keys, each possibly absent. -/
structure HLLiquidation where
  liquidatedUser : Option String
  markPx : Option String
  method : Option String
deriving DecidableEq

/-- A fill dict inside an events entry, hyperliquid_adapter.py lines
115-119. The liquidation field is none when the key is absent or its
value is not a dict. -/
structure HLFill where
  coin : Option String
  px : Option String
  sz : Option String
  dir : Option String
  side : Option String
  fee : Option String
  feeToken : Option String
  hash : Option String
  tid : Option String
  liquidation : Option HLLiquidation
deriving DecidableEq

/-- One parsed line of a node fills log, hyperliquid_adapter.py lines
111-122: record-level fields plus the events array. An events entry is
none when it is not a two-element list with a dict fill, which
_parse_line_liqs skips. -/
structure HLRecord where
  local_time : Option String
  block_time : Option String
  block_number : Option String
  events : List (Option (String × HLFill))
deriving DecidableEq

/-- The flat entry _parse_line_liqs appends for a qualifying fill,
hyperliquid_adapter.py lines 194-211. -/
structure HLEntry where
  local_time : Option String
  block_time : Option String
  block_number : Option String
  coin : Option String
  px : Option String
  sz : Option String
  dir : Option String
  side : Option String
  fee : Option String
  feeToken : Option String
  hash : Option String
  tid : Option String
  liq_user : Option String
  liq_mark_px : Option String
  liq_method : Option String
  liq_kind : String
deriving DecidableEq

/-- Containment of a character list as a contiguous run of another,
modelling the Python in operator on strings. -/
def contains_sub (needle : List Char) : List Char → Bool
  | [] => needle.isEmpty
  | c :: t => needle.isPrefixOf (c :: t) || contains_sub needle t

/-- Embedding of _classify_liq_kind, hyperliquid_adapter.py lines 50-60:
prefer the textual hint in dir (close long / close short), fall back to
the A or B side code, else Unknown. -/
def classify_liq_kind (dir_str side : Option String) : String :=
  let d := py_lower (dir_str.getD "")
  let s := py_upper (side.getD "")
  if contains_sub "close long".data d.data then "Long"
  else if contains_sub "close short".data d.data then "Short"
  else if s = "A" then "Long"
  else if s = "B" then "Short"
  else "Unknown"

/-- Embedding of _liq_side_from_kind, hyperliquid_adapter.py lines 38-48:
Long and Short map to the unified side values, anything else to None. -/
def liq_side_from_kind (kind : String) : Option String :=
  let k := py_lower kind
  if k = "long" then some "long"
  else if k = "short" then some "short"
  else none

/-- Embedding of HyperliquidAdapter._parse_line_liqs, hyperliquid_adapter.py
lines 166-212, applied to an already-decoded record (a line that fails
json.loads yields the empty record upstream). A fill is kept only when
the events entry is well-formed, the fill has a liquidation dict, the
taker equals the liquidatedUser inside it, and the absolute parsed size
is defined and not below min_abs_sz. -/
def parse_line_liqs (min_abs_sz : Rat) (rec : HLRecord) : List HLEntry :=
  rec.events.filterMap (fun ev =>
    match ev with
    | none => none
    | some (taker, fill) =>
      match fill.liquidation with
      | none => none
      | some liq =>
        if liq.liquidatedUser ≠ some taker then none
        else
          match abs_float fill.sz with
          | none => none
          | some sz_abs =>
            if sz_abs < min_abs_sz then none
            else some {
              local_time := rec.local_time
              block_time := rec.block_time
              block_number := rec.block_number
              coin := fill.coin
              px := fill.px
              sz := fill.sz
              dir := fill.dir
              side := fill.side
              fee := fill.fee
              feeToken := fill.feeToken
              hash := fill.hash
              tid := fill.tid
              liq_user := liq.liquidatedUser
              liq_mark_px := liq.markPx
              liq_method := liq.method
              liq_kind := classify_liq_kind fill.dir fill.side })

/-! ## Name tables for the CSV fan-out path (stream.py, writer_csv.py)

The module and class namespaces are embedded as lists of the names their
source files define, so that Python name lookup (import and attribute
access) can be modelled as list membership. -/

/-- Top-level names defined or imported by writer_csv.py. -/
def writer_csv_toplevel_names : List String :=
  ["csv", "os", "datetime", "timezone", "Dict", "Optional",
   "CSV_HEADERS", "_utc_date_str", "CsvDailyRotator"]

/-- Methods of the CsvDailyRotator class, writer_csv.py lines 18-63. -/
def csv_daily_rotator_methods : List String :=
  ["__init__", "_open_for_date", "write_event", "close"]

/-- The name stream.py line 11 imports from writer_csv. -/
def stream_writer_csv_import : String := "CSVWriter"

/-- The method WriterShim.write_row calls on its csv_writer, stream.py
line 84. -/
def writer_shim_csv_call : String := "write_row"

/-- The key CsvDailyRotator.write_event reads unconditionally from its
event argument, writer_csv.py line 49. -/
def write_event_required_key : String := "ts_iso"

/-- The keys of the unified event dict every adapter emits, as written in
binance_adapter.py lines 80-91; the out dicts of aster_adapter.py,
bybit_adapter.py, okx_adapter.py and hyperliquid_adapter.py list exactly
the same keys, as does SCHEMA_COLS in writer_pg.py lines 10-21. -/
def unified_event_keys : List String :=
  ["exchange", "market", "symbol", "side", "qty", "price",
   "notional", "ts_exch_ms", "ts_ingest_ms", "raw"]

/-- Python name lookup in a namespace: the attribute or imported name if
it is defined there, None modelling the ImportError or AttributeError
raised otherwise. -/
def py_lookup (names : List String) (n : String) : Option String :=
  if n ∈ names then some n else none

/-- Invariant of the dedup structure relating its two components: the
membership set holds exactly the keys of the ring, the ring is free of
duplicates, and it holds at most 49999 keys between calls. -/
def DedupInv {K : Type} [DecidableEq K] (s : DedupState K) : Prop :=
  s.seen = s.ring.toFinset ∧ s.ring.Nodup ∧ s.ring.length ≤ 49999

/-! # Helper lemmas -/

theorem binance_backoff_closed (n : Nat) :
    binance_backoff n = min 30 ((1.8 : Rat) ^ n) := by
  induction n with
  | zero =>
    rw [binance_backoff, pow_zero, min_eq_right (by norm_num : (1 : Rat) ≤ 30)]
  | succ n ih =>
    rw [binance_backoff, ih, pow_succ]
    rcases le_or_lt ((1.8 : Rat) ^ n) 30 with h | h
    · rw [min_eq_right h]
    · have hpow : (30 : Rat) ≤ (1.8 : Rat) ^ n * 1.8 := by nlinarith
      rw [min_eq_left h.le, min_eq_left (by norm_num : (30 : Rat) ≤ 30 * 1.8),
        min_eq_left hpow]

theorem spec_backoff_seq_zero : spec_backoff_seq 0 = 1 := by
  rw [spec_backoff_seq, pow_zero, min_eq_right (by norm_num : (1 : Rat) ≤ 30)]

theorem py_truthy_some_of_ne {s : String} (h : s ≠ "") :
    py_truthy (some s) = true := by
  simp [py_truthy, h]

/-! # Claim C1 -/

/-- Claim C1: for every order-driven source record the normalized side
follows the fixed convention: a forced BUY order yields side short and a
forced SELL order yields side long (binance, aster and bybit adapters),
and the okx adapter uses the reported posSide value unmodified. -/
theorem c1_side_convention :
    (∀ os : Option String,
      (py_upper (os.getD "") = "BUY" → derive_liq_side os = some "short") ∧
      (py_upper (os.getD "") = "SELL" → derive_liq_side os = some "long")) ∧
    (∀ S_field side_field : Option String,
      (py_lower ((py_or S_field side_field).getD "") = "buy" →
        bybit_liq_side S_field side_field = "short") ∧
      (py_lower ((py_or S_field side_field).getD "") = "sell" →
        bybit_liq_side S_field side_field = "long")) ∧
    (∀ p : String, p = "long" ∨ p = "short" → okx_liq_side (some p) = p) := by
  refine ⟨fun os => ⟨fun h => ?_, fun h => ?_⟩,
    fun S_field side_field => ⟨fun h => ?_, fun h => ?_⟩, fun p hp => ?_⟩
  · simp [derive_liq_side, h]
  · simp [derive_liq_side, h]
  · simp [bybit_liq_side, h]
  · simp [bybit_liq_side, h]
  · rcases hp with rfl | rfl <;> decide

/-- Witness for C1 at concrete inputs. -/
theorem c1_side_convention_w :
    py_upper ((some "BUY" : Option String).getD "") = "BUY" ∧
    derive_liq_side (some "BUY") = some "short" ∧
    okx_liq_side (some "long") = "long" :=
  ⟨by decide, (c1_side_convention.1 (some "BUY")).1 (by decide),
    c1_side_convention.2.2 "long" (Or.inl rfl)⟩

/-! # Claim C2 -/

/-- Claim C2 as amended: the binance, aster and bybit adapters sleep
min 30 (1.8 to the n) before the reconnect attempt following n+1
consecutive failures, and reset the backoff to 1.0 upon a successful
connect (before any read); the okx adapter instead sleeps a constant
3 seconds on every failure, with no exponential backoff. -/
theorem c2_backoff_amended :
    (∀ n : Nat, binance_backoff n = min 30 ((1.8 : Rat) ^ n)) ∧
    (∀ b : Rat, (binance_run_iter b ConnOutcome.connected_then_failed).1 = 1) ∧
    (∀ n : Nat, okx_reconnect_sleep n = 3) :=
  ⟨binance_backoff_closed, fun _ => rfl, fun _ => rfl⟩

/-- Counterexample to C2 as stated: the okx adapter is a network-backed
adapter, yet its very first reconnect sleep is 3 seconds where the
claimed sequence starts at 1.0. -/
theorem c2_backoff_cx :
    okx_reconnect_sleep 0 = 3 ∧ spec_backoff_seq 0 = 1 ∧
    okx_reconnect_sleep 0 ≠ spec_backoff_seq 0 := by
  refine ⟨rfl, spec_backoff_seq_zero, ?_⟩
  rw [spec_backoff_seq_zero]
  norm_num [okx_reconnect_sleep]

/-! # Claim C3 -/

/-- Claim C3 as amended: the fallback order for the quantity field holds
(last-fill, then cumulative, then order quantity), and the file-based
hyperliquid adapter takes the absolute value of its size so its quantity
is never negative; the binance, aster, bybit and okx adapters however
parse the chosen field directly without taking the absolute value. -/
theorem c3_qty_amended :
    (∀ (z q : Option String) (s : String), s ≠ "" →
      binance_qty (some s) z q = py_float? s) ∧
    (∀ (l q : Option String) (s : String), py_truthy l = false → s ≠ "" →
      binance_qty l (some s) q = py_float? s) ∧
    (∀ (l z : Option String) (s : String),
      py_truthy l = false → py_truthy z = false → s ≠ "" →
      binance_qty l z (some s) = py_float? s) ∧
    (∀ (sz : Option String) (v : Rat), hl_qty sz = some v → 0 ≤ v) := by
  refine ⟨fun z q s hs => ?_, fun l q s hl hs => ?_, fun l z s hl hz hs => ?_,
    fun sz v hv => ?_⟩
  · simp [binance_qty, py_or, py_truthy_some_of_ne hs]
  · simp [binance_qty, py_or, hl, py_truthy_some_of_ne hs]
  · simp [binance_qty, py_or, hl, hz, py_truthy_some_of_ne hs]
  · match sz with
    | none => simp [hl_qty, abs_float] at hv
    | some s =>
      simp only [hl_qty, abs_float, Option.map_eq_some'] at hv
      obtain ⟨u, _, hu⟩ := hv
      rw [← hu]
      exact abs_nonneg u

/-- Witness for C3 as amended at concrete inputs. -/
theorem c3_qty_w :
    ("0.010" ≠ "" ∧ binance_qty (some "0.010") none none = py_float? "0.010") ∧
    (hl_qty (some "-3") = some 3 ∧ (0 : Rat) ≤ 3) :=
  ⟨⟨by decide, c3_qty_amended.1 none none "0.010" (by decide)⟩,
    ⟨by
      rw [show hl_qty (some "-3") = some |(-((3 : Nat) : Rat))| from rfl]
      norm_num,
      c3_qty_amended.2.2.2 (some "-3") 3 (by
        rw [show hl_qty (some "-3") = some |(-((3 : Nat) : Rat))| from rfl]
        norm_num)⟩⟩

/-- Counterexample to C3 as stated: a negative last-fill quantity passes
through the binance normalization unchanged, and a negative size passes
through the bybit normalization unchanged, so the emitted qty can be
negative. -/
theorem c3_qty_cx :
    binance_qty (some "-0.5") none none = some (-(1 / 2) : Rat) ∧
    (-(1 / 2) : Rat) < 0 ∧
    bybit_qty (some "-2") none = -2 ∧ (-2 : Rat) < 0 := by
  refine ⟨?_, by norm_num, ?_, by norm_num⟩
  · rw [show binance_qty (some "-0.5") none none
      = some (-(((0 : Nat) : Rat) + ((5 : Nat) : Rat) / (10 : Rat) ^ 1)) from rfl]
    norm_num
  · rw [show bybit_qty (some "-2") none = -((2 : Nat) : Rat) from rfl]
    norm_num

/-! # Claim C6 -/

/-- Claim C6 as amended: every emitted side is long, short, or a null or
empty placeholder: None from the binance, aster and hyperliquid
normalizers and the empty string from the bybit and okx normalizers; the
string unknown is never produced for a missing or unrecognized source
direction. -/
theorem c6_side_enum_amended :
    (∀ os : Option String, derive_liq_side os = some "long" ∨
      derive_liq_side os = some "short" ∨ derive_liq_side os = none) ∧
    (∀ S_field side_field : Option String,
      bybit_liq_side S_field side_field = "long" ∨
      bybit_liq_side S_field side_field = "short" ∨
      bybit_liq_side S_field side_field = "") ∧
    (∀ p : Option String, okx_liq_side p = "long" ∨
      okx_liq_side p = "short" ∨ okx_liq_side p = "") ∧
    (∀ k : String, liq_side_from_kind k = some "long" ∨
      liq_side_from_kind k = some "short" ∨ liq_side_from_kind k = none) := by
  refine ⟨fun os => ?_, fun S_field side_field => ?_, fun p => ?_, fun k => ?_⟩
  · simp only [derive_liq_side]
    split_ifs <;> simp
  · simp only [bybit_liq_side]
    split_ifs <;> simp
  · simp only [okx_liq_side]
    split_ifs with h
    · rcases h with h | h <;> simp [h]
    · simp
  · simp only [liq_side_from_kind]
    split_ifs <;> simp

/-- Counterexample to C6 as stated: an unrecognized order side yields
None from the binance normalizer and the empty string from the bybit
normalizer, never the enum value unknown. -/
theorem c6_side_enum_cx :
    derive_liq_side (some "HOLD") = none ∧
    (none : Option String) ≠ some "unknown" ∧
    bybit_liq_side (some "HOLD") none = "" ∧ ("" : String) ≠ "unknown" := by
  refine ⟨by decide, by decide, by decide, by decide⟩

/-! # Claim C5 -/

theorem write_row_enqueue_foldl (E : Type) :
    ∀ (es : List E) (q : List E), q.length ≤ 50000 →
      es.foldl write_row_enqueue q = (q ++ es).drop (q.length + es.length - 50000) := by
  intro es
  induction es with
  | nil =>
    intro q hq
    simp [Nat.sub_eq_zero_of_le hq]
  | cons e rest ih =>
    intro q hq
    rcases lt_or_eq_of_le hq with hlt | heq
    · have hstep : write_row_enqueue q e = q ++ [e] := by
        simp [write_row_enqueue, hlt]
      rw [List.foldl_cons, hstep, ih (q ++ [e]) (by simp; omega)]
      have harr : (q ++ [e]) ++ rest = q ++ e :: rest := by simp
      have hidx : (q ++ [e]).length + rest.length - 50000
          = q.length + (e :: rest).length - 50000 := by
        simp
        omega
      rw [harr, hidx]
    · cases q with
      | nil => simp at heq
      | cons a t =>
        have hlen : (a :: t).length = 50000 := heq
        have hstep : write_row_enqueue (a :: t) e = t ++ [e] := by
          simp only [write_row_enqueue, List.tail_cons]
          rw [if_neg (by omega)]
        rw [List.foldl_cons, hstep, ih (t ++ [e]) (by simp at hlen ⊢; omega)]
        have harr : (t ++ [e]) ++ rest = t ++ e :: rest := by simp
        rw [harr]
        have h1 : (t ++ [e]).length + rest.length - 50000 = rest.length := by
          simp at hlen ⊢
          omega
        have h2 : (a :: t).length + (e :: rest).length - 50000 = rest.length + 1 := by
          simp at hlen ⊢
          omega
        rw [h1, h2]
        have harr2 : (a :: t) ++ e :: rest = a :: (t ++ e :: rest) := by simp
        rw [harr2, List.drop_succ_cons]

/-- Claim C5: the write_row enqueue of the Postgres writer never blocks
and biases toward freshness: starting from an empty queue, after any
burst of events the bounded queue holds exactly the most recent events up
to its capacity of 50000, the oldest having been evicted first, in
arrival order. -/
theorem c5_queue_backpressure (E : Type) (es : List E) :
    es.foldl write_row_enqueue [] = es.drop (es.length - 50000) ∧
    (es.foldl write_row_enqueue []).length = min es.length 50000 := by
  have h := write_row_enqueue_foldl E es [] (by simp)
  simp only [List.nil_append, List.length_nil, Nat.zero_add] at h
  refine ⟨h, ?_⟩
  rw [h, List.length_drop]
  omega

/-! # Claim C8 -/

/-- Claim C8: when the flush condition of the background loop holds, a
failed batched insert leaves the loop with an empty batch and nothing
persisted, with the exception caught inside the iteration (the embedded
iteration is a total function), and the carried state equals the one of a
successful insert, so the loop keeps accepting and flushing subsequent
events; there is no retry. -/
theorem c8_flush_failure (E : Type) (ctx : PgFlushCtx) (batch : List E)
    (item : Option E) (elapsed : Rat)
    (h : (pg_batch_extend batch item).length ≠ 0 ∧
      (ctx.batch_size ≤ (pg_batch_extend batch item).length ∨
        ctx.flush_interval ≤ elapsed)) :
    (pg_run_iter ctx batch item elapsed false).1 = [] ∧
    (pg_run_iter ctx batch item elapsed false).2 = [] ∧
    (pg_run_iter ctx batch item elapsed true).1 = [] := by
  simp only [pg_run_iter]
  rw [if_pos h, if_pos h]
  exact ⟨rfl, rfl, rfl⟩

/-- Witness for C8 at the default loop parameters, batch size 500 and
flush interval 1.0, with one arrived event and an elapsed interval of 2
seconds. -/
theorem c8_flush_failure_w :
    ((pg_batch_extend ([] : List Nat) (some 7)).length ≠ 0 ∧
      (PgFlushCtx.batch_size ⟨500, 1⟩ ≤ (pg_batch_extend ([] : List Nat) (some 7)).length ∨
        PgFlushCtx.flush_interval ⟨500, 1⟩ ≤ 2)) ∧
    (pg_run_iter ⟨500, 1⟩ ([] : List Nat) (some 7) 2 false).1 = [] ∧
    (pg_run_iter ⟨500, 1⟩ ([] : List Nat) (some 7) 2 false).2 = [] ∧
    (pg_run_iter ⟨500, 1⟩ ([] : List Nat) (some 7) 2 true).1 = [] :=
  ⟨⟨by decide, Or.inr (by norm_num)⟩,
    c8_flush_failure Nat ⟨500, 1⟩ [] (some 7) 2 ⟨by decide, Or.inr (by norm_num)⟩⟩

/-! # Claim C9 -/

/-- Claim C9: the CSV fan-out path cannot deliver any event. The name
CSVWriter that stream.py imports is not defined by writer_csv.py, the
write_row method WriterShim calls is not a method of CsvDailyRotator, and
the ts_iso key that its write_event method reads unconditionally is not
among the keys of the unified event rows the adapters produce; each
lookup is the embedded Python name resolution, whose None models the
raised ImportError, AttributeError or KeyError. -/
theorem c9_csv_path_broken :
    py_lookup writer_csv_toplevel_names stream_writer_csv_import = none ∧
    py_lookup csv_daily_rotator_methods writer_shim_csv_call = none ∧
    py_lookup unified_event_keys write_event_required_key = none := by
  decide

/-! # Dedup helper lemmas -/

theorem check_seen_of_mem {K : Type} [DecidableEq K] {s : DedupState K} {k : K}
    (h : k ∈ s.seen) : check_seen s k = (true, s) := by
  simp [check_seen, h]

theorem check_seen_fst_of_not_mem {K : Type} [DecidableEq K] {s : DedupState K}
    {k : K} (h : k ∉ s.seen) : (check_seen s k).1 = false := by
  simp only [check_seen, if_neg h]
  generalize (if s.ring.length = 50000 then s.ring.tail ++ [k] else s.ring ++ [k]) = r1
  by_cases h2 : r1.length = 50000
  · rw [if_pos h2]
    cases r1 <;> rfl
  · rw [if_neg h2]

theorem check_seen_not_mem_small {K : Type} [DecidableEq K] {s : DedupState K}
    {k : K} (h : k ∉ s.seen) (hlen : s.ring.length + 1 < 50000) :
    check_seen s k =
      (false, { seen := insert k s.seen, ring := s.ring ++ [k] }) := by
  have h1 : ¬ s.ring.length = 50000 := by omega
  have h2 : ¬ (s.ring ++ [k]).length = 50000 := by
    simp only [List.length_append, List.length_singleton]
    omega
  simp only [check_seen, if_neg h, if_neg h1, if_neg h2]

theorem check_seen_not_mem_full {K : Type} [DecidableEq K] {s : DedupState K}
    {k old : K} {t : List K} (h : k ∉ s.seen) (hring : s.ring = old :: t)
    (hlen : s.ring.length = 49999) :
    check_seen s k =
      (false, { seen := (insert k s.seen).erase old, ring := t ++ [k] }) := by
  obtain ⟨seen1, ring1⟩ := s
  dsimp only at h hring hlen ⊢
  subst hring
  have h1 : ¬ (old :: t).length = 50000 := by omega
  have h2 : (old :: (t ++ [k])).length = 50000 := by
    simp only [List.length_cons, List.length_append, List.length_singleton,
      List.length_nil] at hlen ⊢
    omega
  simp only [check_seen, if_neg h, if_neg h1, List.cons_append, if_pos h2]

theorem dedup_init_inv {K : Type} [DecidableEq K] :
    DedupInv (dedup_init : DedupState K) := by
  refine ⟨?_, ?_, ?_⟩ <;> simp [dedup_init, DedupInv]

theorem dedup_inv_check_seen {K : Type} [DecidableEq K] {s : DedupState K}
    (k : K) (h : DedupInv s) : DedupInv (check_seen s k).2 := by
  obtain ⟨hseen, hnd, hlen⟩ := h
  by_cases hk : k ∈ s.seen
  · rw [check_seen_of_mem hk]
    exact ⟨hseen, hnd, hlen⟩
  · have hkr : k ∉ s.ring := by
      rw [hseen] at hk
      simpa using hk
    by_cases hfull : s.ring.length = 49999
    · obtain ⟨old, t, hring⟩ : ∃ old t, s.ring = old :: t := by
        cases hq : s.ring with
        | nil => rw [hq] at hfull; simp at hfull
        | cons a u => exact ⟨a, u, rfl⟩
      rw [check_seen_not_mem_full hk hring hfull]
      have hot : old ∉ t := by
        rw [hring] at hnd
        exact (List.nodup_cons.mp hnd).1
      have hok : old ≠ k := by
        intro he
        apply hk
        rw [hseen, hring, he]
        simp
      have hkt : k ∉ t := by
        intro hmem
        apply hkr
        rw [hring]
        exact List.mem_cons_of_mem _ hmem
      refine ⟨?_, ?_, ?_⟩
      · show (insert k s.seen).erase old = (t ++ [k]).toFinset
        rw [hseen, hring]
        ext a
        simp only [Finset.mem_erase, Finset.mem_insert, List.mem_toFinset,
          List.mem_cons, List.mem_append, List.mem_singleton,
          List.not_mem_nil, or_false]
        constructor
        · rintro ⟨hne, ha | ha | ha⟩
          · exact Or.inr ha
          · exact absurd ha hne
          · exact Or.inl ha
        · rintro (ha | ha)
          · exact ⟨fun he => hot (he ▸ ha), Or.inr (Or.inr ha)⟩
          · exact ⟨fun he => hok (he.symm.trans ha), Or.inl ha⟩
      · show (t ++ [k]).Nodup
        rw [List.nodup_append]
        refine ⟨(List.nodup_cons.mp (hring ▸ hnd)).2, List.nodup_singleton k, ?_⟩
        intro a ha hb
        rw [List.mem_singleton] at hb
        exact hkt (hb ▸ ha)
      · show (t ++ [k]).length ≤ 49999
        rw [hring] at hfull
        simp only [List.length_append, List.length_singleton]
        simp only [List.length_cons] at hfull
        omega
    · have hsmall : s.ring.length + 1 < 50000 := by omega
      rw [check_seen_not_mem_small hk hsmall]
      refine ⟨?_, ?_, ?_⟩
      · show insert k s.seen = (s.ring ++ [k]).toFinset
        rw [hseen]
        ext a
        simp only [Finset.mem_insert, List.mem_toFinset, List.mem_append,
          List.mem_singleton]
        tauto
      · show (s.ring ++ [k]).Nodup
        rw [List.nodup_append]
        refine ⟨hnd, List.nodup_singleton k, ?_⟩
        intro a ha hb
        rw [List.mem_singleton] at hb
        exact hkr (hb ▸ ha)
      · show (s.ring ++ [k]).length ≤ 49999
        simp only [List.length_append, List.length_singleton]
        omega

theorem dedup_inv_insert_all {K : Type} [DecidableEq K] (ks : List K) :
    ∀ (s : DedupState K), DedupInv s → DedupInv (insert_all s ks) := by
  induction ks with
  | nil => exact fun s h => h
  | cons k rest ih =>
    intro s h
    exact ih _ (dedup_inv_check_seen k h)

theorem insert_all_append {K : Type} [DecidableEq K] (s : DedupState K)
    (l1 l2 : List K) :
    insert_all s (l1 ++ l2) = insert_all (insert_all s l1) l2 := by
  simp [insert_all, List.foldl_append]

theorem insert_all_range_ring :
    ∀ n : Nat, (insert_all (dedup_init : DedupState Nat) (List.range n)).ring
      = (List.range n).drop (n - 49999) := by
  intro n
  induction n with
  | zero => simp [insert_all, dedup_init]
  | succ n ih =>
    obtain ⟨hseen, hnd, hlenb⟩ :=
      dedup_inv_insert_all (List.range n) (dedup_init : DedupState Nat)
        dedup_init_inv
    have hnmem : n ∉ (insert_all (dedup_init : DedupState Nat) (List.range n)).seen := by
      rw [hseen, List.mem_toFinset, ih]
      intro hmem
      exact absurd (List.mem_range.mp (List.mem_of_mem_drop hmem)) (lt_irrefl n)
    have hstep : insert_all (dedup_init : DedupState Nat) (List.range (n + 1))
        = check_seen_state (insert_all (dedup_init : DedupState Nat) (List.range n)) n := by
      rw [List.range_succ n, insert_all_append]
      rfl
    have hrlen : (insert_all (dedup_init : DedupState Nat) (List.range n)).ring.length
        = n - (n - 49999) := by
      rw [ih, List.length_drop, List.length_range]
    rcases le_or_lt n 49998 with hn | hn
    · have hsmall :
          (insert_all (dedup_init : DedupState Nat) (List.range n)).ring.length + 1
            < 50000 := by
        rw [hrlen]; omega
      rw [hstep, check_seen_state, check_seen_not_mem_small hnmem hsmall]
      show (insert_all (dedup_init : DedupState Nat) (List.range n)).ring ++ [n]
        = (List.range (n + 1)).drop (n + 1 - 49999)
      rw [ih]
      have e0 : n - 49999 = 0 := by omega
      have e1 : n + 1 - 49999 = 0 := by omega
      rw [e0, e1, List.drop_zero, List.drop_zero, List.range_succ n]
    · have hfull :
          (insert_all (dedup_init : DedupState Nat) (List.range n)).ring.length
            = 49999 := by
        rw [hrlen]; omega
      obtain ⟨old, t, hring⟩ : ∃ old t,
          (insert_all (dedup_init : DedupState Nat) (List.range n)).ring = old :: t := by
        rcases hq : (insert_all (dedup_init : DedupState Nat) (List.range n)).ring
          with _ | ⟨a, u⟩
        · rw [hq] at hfull; simp at hfull
        · exact ⟨a, u, rfl⟩
      rw [hstep, check_seen_state, check_seen_not_mem_full hnmem hring hfull]
      show t ++ [n] = (List.range (n + 1)).drop (n + 1 - 49999)
      have ht : t = (List.range n).drop (n - 49999 + 1) := by
        have htail : (old :: t).tail = t := rfl
        rw [← htail, ← hring, ih, List.tail_drop]
      have hle : n + 1 - 49999 - (List.range n).length = 0 := by
        rw [List.length_range]; omega
      rw [ht, List.range_succ n, List.drop_append_eq_append_drop, hle,
        List.drop_zero]
      have hidx : n - 49999 + 1 = n + 1 - 49999 := by omega
      rw [hidx]

/-! # Claim C4 -/

/-- Claim C4 as amended: the dedup structure detects any key replayed
while it is still held, which is the case for up to 49998 intervening
distinct new keys; the ring admits a new key first and then, as soon
as its length reaches the maxlen of 50000, immediately evicts the oldest
key, so between calls it retains the most recent 49999 keys (the first
conjunct exhibits the ring as the suffix of the inserted keys past the
evicted prefix). -/
theorem c4_dedup_amended :
    (∀ n : Nat, (insert_all (dedup_init : DedupState Nat) (List.range n)).ring
      = (List.range n).drop (n - 49999)) ∧
    (∀ n : Nat, 1 ≤ n → n ≤ 49999 →
      (check_seen (insert_all (dedup_init : DedupState Nat) (List.range n)) 0).1
        = true) := by
  refine ⟨insert_all_range_ring, fun n h1 h2 => ?_⟩
  have hinv := dedup_inv_insert_all (List.range n)
    (dedup_init : DedupState Nat) dedup_init_inv
  have hmem : (0 : Nat) ∈ (insert_all (dedup_init : DedupState Nat) (List.range n)).seen := by
    rw [hinv.1, List.mem_toFinset, insert_all_range_ring n,
      Nat.sub_eq_zero_of_le h2, List.drop_zero]
    exact List.mem_range.mpr (by omega)
  rw [check_seen_of_mem hmem]

/-- Witness for C4 as amended: after two distinct keys, replaying the
first is detected. -/
theorem c4_dedup_w :
    (1 ≤ 2 ∧ 2 ≤ 49999) ∧
    (check_seen (insert_all (dedup_init : DedupState Nat) (List.range 2)) 0).1
      = true :=
  ⟨⟨by norm_num, by norm_num⟩, c4_dedup_amended.2 2 (by norm_num) (by norm_num)⟩

/-- Counterexample to C4 as stated: insert the 50000 distinct keys
0..49999, so that key 0 has been followed by only 49999 other keys and a
FIFO set of capacity 50000 that evicts before admitting would still hold
it; replaying key 0 is nevertheless not detected, because the code admits
the new key first and evicts the oldest as soon as the ring reaches
50000, leaving a window of 49999 keys. -/
theorem c4_dedup_cx :
    (check_seen (insert_all (dedup_init : DedupState Nat) (List.range 50000)) 0).1
      = false := by
  have hinv := dedup_inv_insert_all (List.range 50000)
    (dedup_init : DedupState Nat) dedup_init_inv
  have hnmem : (0 : Nat) ∉
      (insert_all (dedup_init : DedupState Nat) (List.range 50000)).seen := by
    rw [hinv.1, List.mem_toFinset, insert_all_range_ring 50000,
      show (50000 : Nat) - 49999 = 1 by norm_num,
      show List.range 50000 = 0 :: (List.range 49999).map Nat.succ from
        List.range_succ_eq_map 49999,
      show ((0 : Nat) :: (List.range 49999).map Nat.succ).drop 1
          = (List.range 49999).map Nat.succ from rfl]
    intro hmem
    obtain ⟨a, _, ha⟩ := List.mem_map.mp hmem
    exact Nat.succ_ne_zero a ha
  exact check_seen_fst_of_not_mem hnmem

/-! # Claim C10 -/

/-- Claim C10: after any sequence of _check_seen calls starting from the
initial state, the membership set holds exactly the keys of the FIFO
ring, and its size never exceeds 50000 (it is in fact at most 49999). -/
theorem c10_dedup_sync (ks : List String) :
    (insert_all (dedup_init : DedupState String) ks).seen
      = (insert_all (dedup_init : DedupState String) ks).ring.toFinset ∧
    (insert_all (dedup_init : DedupState String) ks).seen.card ≤ 50000 := by
  have hinv := dedup_inv_insert_all ks (dedup_init : DedupState String)
    dedup_init_inv
  refine ⟨hinv.1, ?_⟩
  rw [hinv.1]
  calc (insert_all (dedup_init : DedupState String) ks).ring.toFinset.card
      ≤ (insert_all (dedup_init : DedupState String) ks).ring.length :=
        List.toFinset_card_le _
    _ ≤ 49999 := hinv.2.2
    _ ≤ 50000 := by norm_num

/-! # Claim C7 -/

/-- Claim C7: the file-based adapter emits a fill only when the record
carries a liquidation object, the taker equals the liquidatedUser named
inside it, and the absolute parsed size is defined (parseable) and not
below the configured minimum threshold; fills failing any of these are
excluded. -/
theorem c7_hl_filter (min_abs_sz : Rat) (rec : HLRecord) (entry : HLEntry)
    (h : entry ∈ parse_line_liqs min_abs_sz rec) :
    ∃ (taker : String) (fill : HLFill) (liq : HLLiquidation) (sz_abs : Rat),
      some (taker, fill) ∈ rec.events ∧
      fill.liquidation = some liq ∧
      liq.liquidatedUser = some taker ∧
      abs_float fill.sz = some sz_abs ∧
      min_abs_sz ≤ sz_abs := by
  simp only [parse_line_liqs, List.mem_filterMap] at h
  obtain ⟨ev, hev, hf⟩ := h
  rcases ev with _ | ⟨taker, fill⟩
  · exact absurd hf (by simp)
  · dsimp only at hf
    cases hliq : fill.liquidation with
    | none => rw [hliq] at hf; exact absurd hf (by simp)
    | some liq =>
      rw [hliq] at hf
      dsimp only at hf
      by_cases huser : liq.liquidatedUser ≠ some taker
      · rw [if_pos huser] at hf
        exact absurd hf (by simp)
      · rw [if_neg huser] at hf
        push_neg at huser
        cases habs : abs_float fill.sz with
        | none => rw [habs] at hf; exact absurd hf (by simp)
        | some sz_abs =>
          rw [habs] at hf
          dsimp only at hf
          by_cases hsz : sz_abs < min_abs_sz
          · rw [if_pos hsz] at hf
            exact absurd hf (by simp)
          · exact ⟨taker, fill, liq, sz_abs, hev, hliq, huser, habs,
              not_lt.mp hsz⟩

/-- Witness for C7: a concrete one-event record whose taker equals the
liquidated user and whose size 2 clears the threshold 1 produces an
entry, and the theorem recovers the filter facts from it. -/
theorem c7_hl_filter_w :
    ((⟨none, none, none, some "ETH", some "2500", some "2", some "Close Long",
        some "A", none, none, none, some "t1", some "alice", none, none,
        "Long"⟩ : HLEntry) ∈
      parse_line_liqs 1
        ⟨none, none, none, [some ("alice",
          ⟨some "ETH", some "2500", some "2", some "Close Long", some "A",
            none, none, none, some "t1", some ⟨some "alice", none, none⟩⟩)]⟩) ∧
    (∃ (taker : String) (fill : HLFill) (liq : HLLiquidation) (sz_abs : Rat),
      some (taker, fill) ∈
        (⟨none, none, none, [some ("alice",
          ⟨some "ETH", some "2500", some "2", some "Close Long", some "A",
            none, none, none, some "t1", some ⟨some "alice", none, none⟩⟩)]⟩
          : HLRecord).events ∧
      fill.liquidation = some liq ∧
      liq.liquidatedUser = some taker ∧
      abs_float fill.sz = some sz_abs ∧
      (1 : Rat) ≤ sz_abs) := by
  have hmem :
      (⟨none, none, none, some "ETH", some "2500", some "2", some "Close Long",
        some "A", none, none, none, some "t1", some "alice", none, none,
        "Long"⟩ : HLEntry) ∈
      parse_line_liqs 1
        ⟨none, none, none, [some ("alice",
          ⟨some "ETH", some "2500", some "2", some "Close Long", some "A",
            none, none, none, some "t1", some ⟨some "alice", none, none⟩⟩)]⟩ := by
    rw [show parse_line_liqs 1
        ⟨none, none, none, [some ("alice",
          ⟨some "ETH", some "2500", some "2", some "Close Long", some "A",
            none, none, none, some "t1", some ⟨some "alice", none, none⟩⟩)]⟩
      = [⟨none, none, none, some "ETH", some "2500", some "2",
          some "Close Long", some "A", none, none, none, some "t1",
          some "alice", none, none, "Long"⟩] from rfl]
    exact List.mem_singleton_self _
  exact ⟨hmem, c7_hl_filter 1 _ _ hmem⟩
